import Mathlib

/-!
Verification of the realtime audio pipeline and utterance segmenter of the
Dexent voice-enhancement application, shallowly embedded from the Python
sources (`audio_pipeline/audio_io.py`, `audio_processor.py`,
`language_translation.py`, `realtime_preview.py`).

Machine integers, byte strings and numpy arrays are modelled as `List ℤ`,
`List ℕ` and `List ℚ`; the Python `queue.Queue` used with non-blocking
operations is modelled as a bounded FIFO list; raising inside a processor
is modelled with `Except`.
-/

set_option autoImplicit false

/-! ### Frame Queue (`queue.Queue(maxsize=100)` used non-blockingly) -/

/-- A bounded FIFO queue: `frames` front-first, `maxsize` the configured
capacity (`queue.Queue(maxsize=...)`). -/
structure FrameQueue (α : Type) where
  maxsize : Nat
  frames : List α
deriving Repr, DecidableEq

/-- Outcome of a non-blocking `put`: either the frame was enqueued, or the
queue was full and the incoming frame was dropped with a logged warning
(the `queue.Full` exception is caught by every caller in the source). -/
inductive PutResult
  | ok
  | droppedLogged
deriving Repr, DecidableEq

/-- `q.put(item, block=False)` as used in `_input_callback` and
`_process_audio`: Python raises `queue.Full` when `0 < maxsize ≤ qsize()`;
both callers catch it, log a warning and keep the queue untouched. -/
def FrameQueue.putNB {α : Type} (q : FrameQueue α) (a : α) :
    FrameQueue α × PutResult :=
  if 0 < q.maxsize ∧ q.maxsize ≤ q.frames.length then
    (q, PutResult.droppedLogged)
  else
    ({ q with frames := q.frames ++ [a] }, PutResult.ok)

/-- `q.get(block=False)` (and the timed-out `get`): front frame if any. -/
def FrameQueue.getNB {α : Type} (q : FrameQueue α) :
    Option (α × FrameQueue α) :=
  match q.frames with
  | [] => none
  | f :: fs => some (f, { q with frames := fs })

/-- The PyAudio stream-callback continuation flag (`pyaudio.paContinue`). -/
inductive StreamFlag
  | paContinue
deriving Repr, DecidableEq

/-- Result of one invocation of a stream callback: the updated queue,
whether the "queue full, dropping frame" warning was logged, and the flag
handed back to PyAudio.  The callback itself never raises: the only
fallible operation is wrapped in `try/except queue.Full`. -/
structure CallbackResult (α : Type) where
  queue : FrameQueue α
  warned : Bool
  flag : StreamFlag
deriving Repr, DecidableEq

/-- `AudioIO._input_callback`: non-blocking put of the captured frame;
on a full queue the frame is dropped and a warning logged; always returns
`paContinue`. -/
def inputCallback {α : Type} (q : FrameQueue α) (inData : α) :
    CallbackResult α :=
  match q.putNB inData with
  | (q', PutResult.ok) => ⟨q', false, StreamFlag.paContinue⟩
  | (q', PutResult.droppedLogged) => ⟨q', true, StreamFlag.paContinue⟩

/-- Feeding a whole sequence of captured frames through the input
callback, keeping only the queue. -/
def pushAll {α : Type} (q : FrameQueue α) (fs : List α) : FrameQueue α :=
  fs.foldl (fun acc f => (inputCallback acc f).queue) q

/-- C1.  Pushing any sequence of frames retains at most `maxsize` frames;
a put on a full queue drops the incoming frame, leaves the retained frames
(in particular the oldest unread one) untouched, logs the drop and still
returns `paContinue` to the producer. -/
theorem frame_queue_bounded_drop_newest {α : Type}
    (q : FrameQueue α) (fs : List α)
    (hq : q.frames.length ≤ q.maxsize) (hpos : 0 < q.maxsize) :
    (pushAll q fs).frames.length ≤ q.maxsize ∧
    (∀ (r : FrameQueue α) (f : α), r.maxsize = q.maxsize →
      r.maxsize ≤ r.frames.length →
      (inputCallback r f).queue = r ∧
      (inputCallback r f).warned = true ∧
      (inputCallback r f).flag = StreamFlag.paContinue) := by
  constructor
  · induction fs generalizing q with
    | nil => exact hq
    | cons f fs ih =>
      have hstep : ((inputCallback q f).queue).frames.length ≤ q.maxsize ∧
          ((inputCallback q f).queue).maxsize = q.maxsize := by
        unfold inputCallback FrameQueue.putNB
        by_cases hfull : 0 < q.maxsize ∧ q.maxsize ≤ q.frames.length
        · simp [hfull, hq]
        · have hlt : q.frames.length < q.maxsize := by
            rcases Nat.lt_or_ge q.frames.length q.maxsize with h | h
            · exact h
            · exact absurd ⟨hpos, h⟩ hfull
          simp [hfull]
          omega
      have := ih ((inputCallback q f).queue)
      rw [hstep.2] at this
      exact by simpa [pushAll] using this hstep.1 hpos
  · intro r f hmax hfull
    have hfull' : 0 < r.maxsize ∧ r.maxsize ≤ r.frames.length :=
      ⟨hmax ▸ hpos, hfull⟩
    unfold inputCallback FrameQueue.putNB
    simp [hfull']

/-- Witness for C1 at a concrete full queue of capacity 2. -/
theorem frame_queue_bounded_drop_newest_witness :
    (pushAll (⟨2, []⟩ : FrameQueue ℕ) [10, 20, 30, 40]).frames.length ≤ 2 ∧
    (inputCallback (⟨2, [10, 20]⟩ : FrameQueue ℕ) 30).queue =
      (⟨2, [10, 20]⟩ : FrameQueue ℕ) ∧
    (inputCallback (⟨2, [10, 20]⟩ : FrameQueue ℕ) 30).warned = true := by
  have h := frame_queue_bounded_drop_newest (⟨2, []⟩ : FrameQueue ℕ)
    [10, 20, 30, 40] (by decide) (by decide)
  refine ⟨h.1, ?_, ?_⟩
  · exact (h.2 ⟨2, [10, 20]⟩ 30 rfl (by decide)).1
  · exact (h.2 ⟨2, [10, 20]⟩ 30 rfl (by decide)).2.1

/-! ### Audio I/O Engine worker loop and output callback -/

/-- An audio frame after `np.frombuffer(in_data, dtype=np.int16)`: the
samples as integers. -/
def Frame : Type := List ℤ

/-- An audio processor as seen by `_process_audio`: a Python callable that
either returns a processed frame or raises (modelled by `Except`). -/
def Processor : Type := Frame → Except String Frame

/-- The `for processor in self.processors: audio_data = processor(audio_data)`
loop: the first raising processor aborts the whole chain. -/
def applyChain (procs : List Processor) (f : Frame) : Except String Frame :=
  match procs with
  | [] => Except.ok f
  | p :: ps =>
    match p f with
    | Except.ok f' => applyChain ps f'
    | Except.error e => Except.error e

/-- State touched by one iteration of the `_process_audio` worker loop. -/
structure WorkerState where
  inQ : FrameQueue Frame
  outQ : FrameQueue Frame
  errorLogs : List String
  outDropWarnings : Nat

/-- One iteration of `AudioIO._process_audio`: dequeue a frame (timed
`get`; on `Empty`, sleep and retry), run the processor chain, enqueue the
result non-blockingly (dropping on a full output queue with a warning); an
exception anywhere in the body is caught by the outer handler, which only
logs `"Error processing audio"` — the frame is not re-enqueued. -/
def processAudioStep (procs : List Processor) (s : WorkerState) :
    WorkerState :=
  match s.inQ.getNB with
  | none => s
  | some (f, inQ') =>
    match applyChain procs f with
    | Except.error e =>
      { s with inQ := inQ', errorLogs := s.errorLogs ++ [e] }
    | Except.ok out =>
      match s.outQ.putNB out with
      | (outQ', PutResult.ok) => { s with inQ := inQ', outQ := outQ' }
      | (outQ', PutResult.droppedLogged) =>
        { s with inQ := inQ', outQ := outQ',
                 outDropWarnings := s.outDropWarnings + 1 }

/-- C2 counterexample.  A single raising processor on a one-frame input
queue: after the worker iteration the original frame is NOT in the output
queue (it was dropped, only an error log was emitted), refuting the
claimed fail-open forwarding. -/
theorem processor_error_not_forwarded_cex :
    ¬ (([1] : List ℤ) ∈
      (processAudioStep [fun _ => Except.error "boom"]
        ⟨⟨100, [([1] : List ℤ)]⟩, ⟨100, []⟩, [], 0⟩).outQ.frames) := by
  simp [processAudioStep, FrameQueue.getNB, applyChain]

/-- C2 amended.  When the dequeued frame makes some processor in the chain
raise, the worker logs the exception and drops the frame for that
iteration: the output queue is left exactly as it was (nothing is
forwarded, nothing evicted), and only the error log grows. -/
theorem processor_error_logged_and_dropped
    (procs : List Processor) (s : WorkerState) (f : Frame)
    (inQ' : FrameQueue Frame) (e : String)
    (hget : s.inQ.getNB = some (f, inQ'))
    (herr : applyChain procs f = Except.error e) :
    (processAudioStep procs s).outQ = s.outQ ∧
    (processAudioStep procs s).errorLogs = s.errorLogs ++ [e] ∧
    (processAudioStep procs s).inQ = inQ' := by
  simp [processAudioStep, hget, herr]

/-- Witness for C2's amended theorem at a concrete failing chain. -/
theorem processor_error_logged_and_dropped_witness :
    (processAudioStep [fun _ => Except.error "boom"]
        ⟨⟨100, [([1] : List ℤ)]⟩, ⟨100, [([7] : List ℤ)]⟩, [], 0⟩).outQ =
      ⟨100, [([7] : List ℤ)]⟩ ∧
    (processAudioStep [fun _ => Except.error "boom"]
        ⟨⟨100, [([1] : List ℤ)]⟩, ⟨100, [([7] : List ℤ)]⟩, [], 0⟩).errorLogs =
      [] ++ ["boom"] := by
  have h := processor_error_logged_and_dropped
    [fun _ => Except.error "boom"]
    ⟨⟨100, [([1] : List ℤ)]⟩, ⟨100, [([7] : List ℤ)]⟩, [], 0⟩
    [1] ⟨100, []⟩ "boom" rfl rfl
  exact ⟨h.1, h.2.1⟩

/-- Modelled from the spec: the audio-format constants that
`audio_pipeline/audio_io.py` imports from `config`
(`SAMPLE_RATE, CHANNELS, FRAMES_PER_BUFFER, FORMAT`) are not defined in
the repository's `config.py`; the spec fixes single-channel audio and the
worker converts every frame with `dtype=np.int16`, so the configured
format is the 16-bit one. -/
def CHANNELS : Nat := 1

/-- Modelled from the spec: the configured sample format (see `CHANNELS`);
`"int16"` per the spec's AudioFrame data model and the worker's uniform
`np.int16` conversion. -/
def FORMAT : String := "int16"

/-- Byte width of each PyAudio sample format recognised by
`_get_pyaudio_format` (unknown strings fall back to `paInt16`). -/
def sampleWidth : String → Nat
  | "int16" => 2
  | "int24" => 3
  | "int32" => 4
  | "float32" => 4
  | _ => 2

/-- A raw byte string as handed to PyAudio. -/
abbrev ByteStr : Type := List ℕ

/-- `AudioIO._output_callback`: non-blocking `get` from the output queue;
on `queue.Empty` it returns `bytes(frame_count * CHANNELS * 2)` — a
zero-filled buffer — always with `paContinue`. -/
def outputCallback (q : FrameQueue ByteStr) (frameCount : Nat) :
    ByteStr × FrameQueue ByteStr × StreamFlag :=
  match q.getNB with
  | some (d, q') => (d, q', StreamFlag.paContinue)
  | none =>
    (List.replicate (frameCount * CHANNELS * 2) 0, q, StreamFlag.paContinue)

/-- C3.  When the output queue is empty, the playback callback returns an
all-zero buffer whose byte length is exactly the requested frame count
times the configured channel count times the configured sample width, and
it keeps the stream alive with `paContinue`. -/
theorem output_callback_silence_on_empty
    (q : FrameQueue ByteStr) (frameCount : Nat) (hq : q.frames = []) :
    (outputCallback q frameCount).1.length =
      frameCount * CHANNELS * sampleWidth FORMAT ∧
    (∀ b ∈ (outputCallback q frameCount).1, b = 0) ∧
    (outputCallback q frameCount).2.2 = StreamFlag.paContinue := by
  unfold outputCallback FrameQueue.getNB
  rw [hq]
  refine ⟨?_, ?_, rfl⟩
  · simp [ByteStr, CHANNELS, FORMAT, sampleWidth]
  · intro b hb
    simpa using List.eq_of_mem_replicate hb

/-- Witness for C3 on an empty queue with the default 1024-frame buffer. -/
theorem output_callback_silence_on_empty_witness :
    (outputCallback ⟨100, []⟩ 1024).1.length =
      1024 * CHANNELS * sampleWidth FORMAT := by
  exact (output_callback_silence_on_empty ⟨100, []⟩ 1024 rfl).1

/-! ### Utterance Segmenter (`LanguageTranslationManager.real_time_translate`) -/

/-- An audio chunk: `numpy.ndarray` of float samples, modelled exactly
over the rationals. -/
abbrev Chunk : Type := List ℚ

/-- `np.mean(np.square(audio_chunk))`; for the empty chunk the quotient
`0 / 0` is `0` in `ℚ`, matching numpy's `NaN` being below any threshold. -/
def chunkEnergy (c : Chunk) : ℚ :=
  (c.map (fun x => x * x)).sum / c.length

/-- `LanguageTranslationManager._detect_speech`: energy strictly above the
threshold (default `0.01`). -/
def detectSpeech (c : Chunk) (threshold : ℚ) : Bool :=
  chunkEnergy c > threshold

/-- The mutable translation context dict threaded through
`real_time_translate`; the collaborator's result dicts are kept opaque in
the type parameter `R`. -/
structure UtteranceContext (R : Type) where
  buffer : Chunk
  last_translation : Option R
  silence_frames : Nat
  is_speaking : Bool
  current_utterance : Chunk
  translations : List R
deriving Repr, DecidableEq

/-- The context created by `real_time_translate` when it is handed a
falsy `context` argument. -/
def initContext (R : Type) : UtteranceContext R :=
  ⟨[], none, 0, false, [], []⟩

/-- The dict returned by one `real_time_translate` call. -/
structure RTResult (R : Type) where
  context : UtteranceContext R
  has_translation : Bool
  translation : Option R
deriving Repr, DecidableEq

/-- One call of `real_time_translate` on an already-initialized context,
parametric in the external collaborator
`translate_and_preserve_identity` (`tr`).  Faithful transcription:
the chunk is unconditionally concatenated onto `buffer`; on speech the
silence counter resets, `is_speaking` is set and the chunk joins
`current_utterance`; on silence the counter increments and, if
`is_speaking` and the counter reached 10, the utterance is finalized:
`is_speaking` is cleared and, when the utterance is non-empty, the
collaborator's result is stored, appended to `translations`, the
utterance buffer is cleared and the call returns `has_translation=true`. -/
def realTimeTranslate {R : Type} (tr : Chunk → R) (chunk : Chunk)
    (ctx : UtteranceContext R) : RTResult R :=
  let ctx1 := { ctx with buffer := ctx.buffer ++ chunk }
  if detectSpeech chunk (1/100) then
    let ctxS := { ctx1 with silence_frames := 0, is_speaking := true,
                            current_utterance :=
                              ctx1.current_utterance ++ chunk }
    ⟨ctxS, false, none⟩
  else
    let ctx2 := { ctx1 with silence_frames := ctx1.silence_frames + 1 }
    if ctx2.is_speaking ∧ 10 ≤ ctx2.silence_frames then
      let ctx3 := { ctx2 with is_speaking := false }
      if ctx3.current_utterance ≠ [] then
        let r := tr ctx3.current_utterance
        let ctx4 := { ctx3 with last_translation := some r,
                                translations := ctx3.translations ++ [r],
                                current_utterance := [] }
        ⟨ctx4, true, some r⟩
      else
        ⟨ctx3, false, none⟩
    else
      ⟨ctx2, false, none⟩

/-- Repeated `real_time_translate` calls over a chunk sequence, returning
the final context and the per-call `has_translation` flags. -/
def runSegmenter {R : Type} (tr : Chunk → R) (ctx : UtteranceContext R) :
    List Chunk → UtteranceContext R × List Bool
  | [] => (ctx, [])
  | c :: cs =>
    let r := realTimeTranslate tr c ctx
    let rest := runSegmenter tr r.context cs
    (rest.1, r.has_translation :: rest.2)

/-- Helper: every branch of `real_time_translate` leaves
`buffer ++ chunk` in the context. -/
theorem realTimeTranslate_buffer {R : Type} (tr : Chunk → R) (c : Chunk)
    (ctx : UtteranceContext R) :
    (realTimeTranslate tr c ctx).context.buffer = ctx.buffer ++ c := by
  unfold realTimeTranslate
  dsimp only
  split
  · rfl
  · split
    · split
      · rfl
      · rfl
    · rfl

/-- C10.  Every call — speech or silence, Idle or Speaking — appends the
incoming chunk to the context's `buffer`, and no segmenter operation ever
consumes or clears it: after any run the `buffer` equals the previous
buffer followed by the concatenation of every chunk ever passed. -/
theorem segmenter_buffer_grows_unboundedly {R : Type}
    (tr : Chunk → R) (ctx : UtteranceContext R) (chunks : List Chunk) :
    (∀ c : Chunk,
      (realTimeTranslate tr c ctx).context.buffer = ctx.buffer ++ c) ∧
    (runSegmenter tr ctx chunks).1.buffer = ctx.buffer ++ chunks.flatten := by
  constructor
  · intro c
    exact realTimeTranslate_buffer tr c ctx
  · induction chunks generalizing ctx with
    | nil => simp [runSegmenter]
    | cons c cs ih =>
      calc (runSegmenter tr ctx (c :: cs)).1.buffer
          = (runSegmenter tr (realTimeTranslate tr c ctx).context cs).1.buffer
            := by simp [runSegmenter]
        _ = (realTimeTranslate tr c ctx).context.buffer ++ cs.flatten :=
            ih (realTimeTranslate tr c ctx).context
        _ = ctx.buffer ++ c ++ cs.flatten := by
            rw [realTimeTranslate_buffer]
        _ = ctx.buffer ++ (c :: cs).flatten := by simp


/-- Helper: one-step unfolding of `runSegmenter` on a cons cell. -/
theorem runSegmenter_cons {R : Type} (tr : Chunk → R)
    (ctx : UtteranceContext R) (c : Chunk) (cs : List Chunk) :
    runSegmenter tr ctx (c :: cs) =
      ((runSegmenter tr (realTimeTranslate tr c ctx).context cs).1,
       (realTimeTranslate tr c ctx).has_translation ::
         (runSegmenter tr (realTimeTranslate tr c ctx).context cs).2) := rfl

/-- Helper: a voice-active chunk resets the silence counter, sets
`is_speaking` and joins the current utterance. -/
theorem realTimeTranslate_speech {R : Type} (tr : Chunk → R) (c : Chunk)
    (ctx : UtteranceContext R) (hs : detectSpeech c (1/100) = true) :
    realTimeTranslate tr c ctx =
      ⟨⟨ctx.buffer ++ c, ctx.last_translation, 0, true,
        ctx.current_utterance ++ c, ctx.translations⟩, false, none⟩ := by
  unfold realTimeTranslate
  dsimp only
  rw [if_pos hs]

/-- Helper: a silent chunk that does not trigger finalization only bumps
the counter (and the raw buffer). -/
theorem realTimeTranslate_silence_noFinal {R : Type} (tr : Chunk → R)
    (c : Chunk) (ctx : UtteranceContext R)
    (hs : detectSpeech c (1/100) = false)
    (hno : ¬ (ctx.is_speaking = true ∧ 10 ≤ ctx.silence_frames + 1)) :
    realTimeTranslate tr c ctx =
      ⟨⟨ctx.buffer ++ c, ctx.last_translation, ctx.silence_frames + 1,
        ctx.is_speaking, ctx.current_utterance, ctx.translations⟩,
        false, none⟩ := by
  have hs' : ¬ (detectSpeech c (1/100) = true) := by
    rw [hs]; exact Bool.false_ne_true
  unfold realTimeTranslate
  dsimp only
  rw [if_neg hs', if_neg hno]

/-- Helper: the finalizing silent chunk — speaking, counter reaching 10,
non-empty utterance — stores the collaborator's result, appends it to the
log, clears the utterance, leaves the incremented counter, drops back to
Idle and reports `has_translation`. -/
theorem realTimeTranslate_finalize {R : Type} (tr : Chunk → R) (c : Chunk)
    (ctx : UtteranceContext R)
    (hs : detectSpeech c (1/100) = false)
    (hsp : ctx.is_speaking = true)
    (hcnt : 10 ≤ ctx.silence_frames + 1)
    (hcu : ctx.current_utterance ≠ []) :
    realTimeTranslate tr c ctx =
      ⟨⟨ctx.buffer ++ c, some (tr ctx.current_utterance),
        ctx.silence_frames + 1, false, [],
        ctx.translations ++ [tr ctx.current_utterance]⟩,
        true, some (tr ctx.current_utterance)⟩ := by
  have hs' : ¬ (detectSpeech c (1/100) = true) := by
    rw [hs]; exact Bool.false_ne_true
  unfold realTimeTranslate
  dsimp only
  rw [if_neg hs', if_pos ⟨hsp, hcnt⟩, if_pos hcu]

/-- Helper: `runSegmenter` distributes over list append. -/
theorem runSegmenter_append {R : Type} (tr : Chunk → R)
    (ctx : UtteranceContext R) (xs ys : List Chunk) :
    runSegmenter tr ctx (xs ++ ys) =
      ((runSegmenter tr (runSegmenter tr ctx xs).1 ys).1,
       (runSegmenter tr ctx xs).2 ++
         (runSegmenter tr (runSegmenter tr ctx xs).1 ys).2) := by
  induction xs generalizing ctx with
  | nil => simp [runSegmenter]
  | cons x xs ih =>
    simp only [List.cons_append, runSegmenter_cons, ih]

/-- Helper: a run of voice-active chunks accumulates them all into the
current utterance, ends speaking with counter 0, and never finalizes. -/
theorem runSegmenter_speech {R : Type} (tr : Chunk → R) (S : List Chunk)
    (hS : ∀ c ∈ S, detectSpeech c (1/100) = true) :
    ∀ ctx : UtteranceContext R, S ≠ [] →
      runSegmenter tr ctx S =
        (⟨ctx.buffer ++ S.flatten, ctx.last_translation, 0, true,
          ctx.current_utterance ++ S.flatten, ctx.translations⟩,
         List.replicate S.length false) := by
  induction S with
  | nil => intro ctx h; exact absurd rfl h
  | cons c cs ih =>
    intro ctx _
    have hc : detectSpeech c (1/100) = true := hS c (by simp)
    have hcs : ∀ d ∈ cs, detectSpeech d (1/100) = true :=
      fun d hd => hS d (List.mem_cons_of_mem c hd)
    rw [runSegmenter_cons, realTimeTranslate_speech tr c ctx hc]
    cases cs with
    | nil =>
      simp [runSegmenter]
    | cons d ds =>
      rw [ih hcs ⟨ctx.buffer ++ c, ctx.last_translation, 0, true,
        ctx.current_utterance ++ c, ctx.translations⟩ (by simp)]
      simp [List.append_assoc, List.replicate_succ]

/-- Helper: silent chunks while speaking, too few to reach the threshold,
only advance the counter. -/
theorem runSegmenter_silence_speaking {R : Type} (tr : Chunk → R)
    (Z : List Chunk) (hZ : ∀ c ∈ Z, detectSpeech c (1/100) = false) :
    ∀ ctx : UtteranceContext R, ctx.is_speaking = true →
      ctx.silence_frames + Z.length < 10 →
      runSegmenter tr ctx Z =
        (⟨ctx.buffer ++ Z.flatten, ctx.last_translation,
          ctx.silence_frames + Z.length, true,
          ctx.current_utterance, ctx.translations⟩,
         List.replicate Z.length false) := by
  induction Z with
  | nil =>
    intro ctx hsp _
    simp [runSegmenter, hsp.symm]
  | cons c cs ih =>
    intro ctx hsp hcnt
    have hc : detectSpeech c (1/100) = false := hZ c (by simp)
    have hcs : ∀ d ∈ cs, detectSpeech d (1/100) = false :=
      fun d hd => hZ d (List.mem_cons_of_mem c hd)
    have hlen : ctx.silence_frames + 1 + cs.length < 10 := by
      simp only [List.length_cons] at hcnt
      omega
    have hno : ¬ (ctx.is_speaking = true ∧ 10 ≤ ctx.silence_frames + 1) := by
      intro h
      exact absurd h.2 (by omega)
    rw [runSegmenter_cons, realTimeTranslate_silence_noFinal tr c ctx hc hno]
    rw [ih hcs ⟨ctx.buffer ++ c, ctx.last_translation,
      ctx.silence_frames + 1, ctx.is_speaking, ctx.current_utterance,
      ctx.translations⟩ hsp hlen]
    have harith : ctx.silence_frames + 1 + cs.length =
        ctx.silence_frames + (c :: cs).length := by
      simp only [List.length_cons]
      omega
    simp [harith, List.replicate_succ, List.append_assoc]

/-- Helper: silent chunks while Idle never finalize; only the counter and
the raw buffer advance. -/
theorem runSegmenter_silence_idle {R : Type} (tr : Chunk → R)
    (Z : List Chunk) (hZ : ∀ c ∈ Z, detectSpeech c (1/100) = false) :
    ∀ ctx : UtteranceContext R, ctx.is_speaking = false →
      runSegmenter tr ctx Z =
        (⟨ctx.buffer ++ Z.flatten, ctx.last_translation,
          ctx.silence_frames + Z.length, false,
          ctx.current_utterance, ctx.translations⟩,
         List.replicate Z.length false) := by
  induction Z with
  | nil =>
    intro ctx hsp
    simp [runSegmenter, hsp.symm]
  | cons c cs ih =>
    intro ctx hsp
    have hc : detectSpeech c (1/100) = false := hZ c (by simp)
    have hcs : ∀ d ∈ cs, detectSpeech d (1/100) = false :=
      fun d hd => hZ d (List.mem_cons_of_mem c hd)
    have hno : ¬ (ctx.is_speaking = true ∧ 10 ≤ ctx.silence_frames + 1) := by
      intro h
      rw [hsp] at h
      exact Bool.false_ne_true h.1
    rw [runSegmenter_cons, realTimeTranslate_silence_noFinal tr c ctx hc hno]
    rw [ih hcs ⟨ctx.buffer ++ c, ctx.last_translation,
      ctx.silence_frames + 1, ctx.is_speaking, ctx.current_utterance,
      ctx.translations⟩ hsp]
    have harith : ctx.silence_frames + 1 + cs.length =
        ctx.silence_frames + (c :: cs).length := by
      simp only [List.length_cons]
      omega
    simp [harith, List.replicate_succ, List.append_assoc]

/-- Helper: the empty chunk is never voice-active (`np.mean` of an empty
array compares false against the threshold). -/
theorem detectSpeech_nil : detectSpeech [] (1/100) = false := by
  simp [detectSpeech, chunkEnergy]

/-- Helper: a non-empty voice-active prefix has non-empty concatenation. -/
theorem flatten_ne_nil_of_speech (S : List Chunk)
    (hS : ∀ c ∈ S, detectSpeech c (1/100) = true) (hSne : S ≠ []) :
    S.flatten ≠ [] := by
  cases S with
  | nil => exact absurd rfl hSne
  | cons s0 S' =>
    have hd := hS s0 (by simp)
    intro h
    simp only [List.flatten_cons, List.append_eq_nil] at h
    rw [h.1] at hd
    rw [detectSpeech_nil] at hd
    exact Bool.false_ne_true hd

/-- C4.  Any non-empty voice-active chunk stream followed by at least 10
consecutive silent chunks finalizes exactly one utterance: the
`has_translation` flags are false everywhere except on the 10th silent
chunk, and the single finalized utterance handed to the collaborator (and
logged) is exactly the concatenation of the voice-active chunks — no
silence chunk is included. -/
theorem segmenter_single_finalization {R : Type} (tr : Chunk → R)
    (S Z : List Chunk)
    (hS : ∀ c ∈ S, detectSpeech c (1/100) = true)
    (hSne : S ≠ [])
    (hZ : ∀ c ∈ Z, detectSpeech c (1/100) = false)
    (hZlen : 10 ≤ Z.length) :
    (runSegmenter tr (initContext R) (S ++ Z)).2 =
      List.replicate (S.length + 9) false ++
        true :: List.replicate (Z.length - 10) false ∧
    (runSegmenter tr (initContext R) (S ++ Z)).1.translations =
      [tr S.flatten] := by
  have hSflat : S.flatten ≠ [] := flatten_ne_nil_of_speech S hS hSne
  -- run over the speech prefix
  have hrunS : runSegmenter tr (initContext R) S =
      (⟨S.flatten, none, 0, true, S.flatten, []⟩,
       List.replicate S.length false) := by
    rw [runSegmenter_speech tr S hS (initContext R) hSne]
    simp [initContext]
  -- decompose the silent run as 9 chunks, the finalizing chunk, the rest
  have hsplit : Z.take 9 ++ Z.drop 9 = Z := List.take_append_drop 9 Z
  have h9 : (Z.take 9).length = 9 := by
    rw [List.length_take]
    omega
  obtain ⟨z, Z2, hdz⟩ : ∃ z Z2, Z.drop 9 = z :: Z2 := by
    cases hd : Z.drop 9 with
    | nil =>
      have := List.length_drop 9 Z
      rw [hd] at this
      simp at this
      omega
    | cons z Z2 => exact ⟨z, Z2, rfl⟩
  have hZ9 : ∀ c ∈ Z.take 9, detectSpeech c (1/100) = false :=
    fun c hc => hZ c (List.take_subset 9 Z hc)
  have hz : detectSpeech z (1/100) = false := by
    refine hZ z (List.drop_subset 9 Z ?_)
    rw [hdz]
    simp
  have hZ2 : ∀ c ∈ Z2, detectSpeech c (1/100) = false := by
    intro c hc
    refine hZ c (List.drop_subset 9 Z ?_)
    rw [hdz]
    simp [hc]
  have hZ2len : Z2.length = Z.length - 10 := by
    have := congrArg List.length hsplit
    rw [hdz] at this
    simp only [List.length_append, List.length_cons] at this
    omega
  -- 9 silent chunks while speaking: the counter climbs to 9
  have hrun9 : runSegmenter tr
      (⟨S.flatten, none, 0, true, S.flatten, []⟩ : UtteranceContext R)
      (Z.take 9) =
      (⟨S.flatten ++ (Z.take 9).flatten, none, 9, true, S.flatten, []⟩,
       List.replicate 9 false) := by
    rw [runSegmenter_silence_speaking tr (Z.take 9) hZ9
      ⟨S.flatten, none, 0, true, S.flatten, []⟩ rfl
      (by show 0 + (Z.take 9).length < 10; rw [h9]; omega)]
    rw [h9]
  -- the 10th silent chunk finalizes
  have hfin : realTimeTranslate tr z
      (⟨S.flatten ++ (Z.take 9).flatten, none, 9, true, S.flatten, []⟩ :
        UtteranceContext R) =
      ⟨⟨S.flatten ++ (Z.take 9).flatten ++ z, some (tr S.flatten), 10,
        false, [], [tr S.flatten]⟩, true, some (tr S.flatten)⟩ := by
    rw [realTimeTranslate_finalize tr z
      ⟨S.flatten ++ (Z.take 9).flatten, none, 9, true, S.flatten, []⟩
      hz rfl (by show 10 ≤ 9 + 1; omega) hSflat]
    simp
  -- the remaining silent chunks are absorbed in Idle
  have hrunZ2 : runSegmenter tr
      (⟨S.flatten ++ (Z.take 9).flatten ++ z, some (tr S.flatten), 10,
        false, [], [tr S.flatten]⟩ : UtteranceContext R) Z2 =
      (⟨(S.flatten ++ (Z.take 9).flatten ++ z) ++ Z2.flatten,
        some (tr S.flatten), 10 + Z2.length, false, [], [tr S.flatten]⟩,
       List.replicate Z2.length false) := by
    rw [runSegmenter_silence_idle tr Z2 hZ2
      ⟨S.flatten ++ (Z.take 9).flatten ++ z, some (tr S.flatten), 10,
        false, [], [tr S.flatten]⟩ rfl]
  -- assemble the full run
  have hrunZ : runSegmenter tr
      (⟨S.flatten, none, 0, true, S.flatten, []⟩ : UtteranceContext R) Z =
      (⟨(S.flatten ++ (Z.take 9).flatten ++ z) ++ Z2.flatten,
        some (tr S.flatten), 10 + Z2.length, false, [], [tr S.flatten]⟩,
       List.replicate 9 false ++
         true :: List.replicate Z2.length false) := by
    conv_lhs => rw [← hsplit, hdz]
    rw [runSegmenter_append, hrun9]
    dsimp only
    rw [runSegmenter_cons, hfin]
    dsimp only
    rw [hrunZ2]
  rw [runSegmenter_append, hrunS]
  dsimp only
  rw [hrunZ]
  refine ⟨?_, rfl⟩
  dsimp only
  rw [hZ2len, ← List.append_assoc, ← List.replicate_add]

/-- Witness for C4: the spec's end-to-end scenario — 5 chunks of energy
0.5 then 12 chunks of energy 0, threshold 0.01 — finalizes exactly once,
on the 10th silent chunk (call 15, index 14), with the utterance being the
5 speech chunks. -/
theorem segmenter_single_finalization_witness :
    (runSegmenter (fun u => u) (initContext Chunk)
        (List.replicate 5 [1, 0] ++ List.replicate 12 [0, 0])).2 =
      List.replicate 14 false ++ true :: List.replicate 2 false ∧
    (runSegmenter (fun u => u) (initContext Chunk)
        (List.replicate 5 [1, 0] ++ List.replicate 12 [0, 0])).1.translations
      = [(List.replicate 5 ([1, 0] : Chunk)).flatten] := by
  have h := segmenter_single_finalization (fun u => u)
    (List.replicate 5 [1, 0]) (List.replicate 12 [0, 0])
    (by
      intro c hc
      rw [List.eq_of_mem_replicate hc]
      norm_num [detectSpeech, chunkEnergy])
    (by decide)
    (by
      intro c hc
      rw [List.eq_of_mem_replicate hc]
      norm_num [detectSpeech, chunkEnergy])
    (by decide)
  simpa using h

/-- C5 counterexample.  On the finalizing transition the silence-frame
counter is NOT reset to 0: with counter 9 and a 10th silent chunk the
resulting context carries counter 10, refuting the claimed reset. -/
theorem finalize_counter_not_reset_cex :
    (realTimeTranslate (fun u : Chunk => u) [0, 0]
      ⟨[], none, 9, true, [1], []⟩).context.silence_frames ≠ 0 := by
  rw [realTimeTranslate_finalize (fun u : Chunk => u) [0, 0]
    ⟨[], none, 9, true, [1], []⟩
    (by norm_num [detectSpeech, chunkEnergy]) rfl
    (by show 10 ≤ 9 + 1; omega) (by decide)]
  simp

/-- C5 amended.  The finalizing call hands the accumulated utterance to
the collaborator, stores and appends its result to the translation log,
clears the utterance buffer, returns `has_translation=true` and leaves the
context Idle — but the silence-frame counter is NOT reset to 0: it keeps
the incremented value (it is only cleared by the next voice-active
chunk). -/
theorem finalize_transition_behavior {R : Type} (tr : Chunk → R)
    (c : Chunk) (ctx : UtteranceContext R)
    (hs : detectSpeech c (1/100) = false)
    (hsp : ctx.is_speaking = true)
    (hcnt : 10 ≤ ctx.silence_frames + 1)
    (hcu : ctx.current_utterance ≠ []) :
    realTimeTranslate tr c ctx =
      ⟨⟨ctx.buffer ++ c, some (tr ctx.current_utterance),
        ctx.silence_frames + 1, false, [],
        ctx.translations ++ [tr ctx.current_utterance]⟩,
        true, some (tr ctx.current_utterance)⟩ ∧
    (realTimeTranslate tr c ctx).context.silence_frames ≠ 0 := by
  constructor
  · exact realTimeTranslate_finalize tr c ctx hs hsp hcnt hcu
  · rw [realTimeTranslate_finalize tr c ctx hs hsp hcnt hcu]
    simp

/-- Witness for C5's amended theorem at a concrete finalization. -/
theorem finalize_transition_behavior_witness :
    realTimeTranslate (fun u : Chunk => u) [0, 0]
        ⟨[], none, 9, true, [1], []⟩ =
      ⟨⟨[] ++ [0, 0], some [1], 9 + 1, false, [], [] ++ [[1]]⟩,
        true, some [1]⟩ := by
  have h := finalize_transition_behavior (fun u : Chunk => u) [0, 0]
    ⟨[], none, 9, true, [1], []⟩
    (by norm_num [detectSpeech, chunkEnergy]) rfl
    (by show 10 ≤ 9 + 1; omega) (by decide)
  exact h.1

/-- The dict returned by `translate_and_preserve_identity`: translated
text, synthesized audio, and possibly an `error` key. -/
structure TranslationResult where
  translated_text : String
  audio : Chunk
  error : Option String
deriving Repr, DecidableEq

/-- C6 counterexample.  When the collaborator returns a result carrying an
`error` key, `real_time_translate` appends it to the context's translation
log all the same — refuting the claim that the errored utterance result is
discarded and not appended. -/
theorem error_result_appended_cex :
    (⟨"", [], some "Failed to synthesize translation"⟩ : TranslationResult)
      ∈ (realTimeTranslate
          (fun _ => (⟨"", [], some "Failed to synthesize translation"⟩ :
            TranslationResult))
          [0, 0] ⟨[], none, 9, true, [1], []⟩).context.translations := by
  rw [realTimeTranslate_finalize
    (fun _ => (⟨"", [], some "Failed to synthesize translation"⟩ :
      TranslationResult))
    [0, 0] ⟨[], none, 9, true, [1], []⟩
    (by norm_num [detectSpeech, chunkEnergy]) rfl
    (by show 10 ≤ 9 + 1; omega) (by decide)]
  simp

/-- C6 amended.  The segmenter never inspects the `error` key: a
finalization whose collaborator result carries `error` appends that result
to the translation log and returns it as the per-chunk translation exactly
like a success; there is no crash, the state machine returns to Idle, and
it keeps accepting and segmenting new speech on subsequent voice-active
chunks. -/
theorem segmenter_ignores_error_key (tr : Chunk → TranslationResult)
    (c c' : Chunk) (ctx : UtteranceContext TranslationResult) (e : String)
    (hs : detectSpeech c (1/100) = false)
    (hsp : ctx.is_speaking = true)
    (hcnt : 10 ≤ ctx.silence_frames + 1)
    (hcu : ctx.current_utterance ≠ [])
    (herr : (tr ctx.current_utterance).error = some e)
    (hc' : detectSpeech c' (1/100) = true) :
    (realTimeTranslate tr c ctx).context.translations =
      ctx.translations ++ [tr ctx.current_utterance] ∧
    (realTimeTranslate tr c ctx).translation =
      some (tr ctx.current_utterance) ∧
    (realTimeTranslate tr c ctx).has_translation = true ∧
    (realTimeTranslate tr c ctx).context.is_speaking = false ∧
    (realTimeTranslate tr c'
      (realTimeTranslate tr c ctx).context).context.is_speaking = true ∧
    (realTimeTranslate tr c'
      (realTimeTranslate tr c ctx).context).context.current_utterance = c'
    := by
  rw [realTimeTranslate_finalize tr c ctx hs hsp hcnt hcu]
  rw [realTimeTranslate_speech tr c'
    ⟨ctx.buffer ++ c, some (tr ctx.current_utterance),
      ctx.silence_frames + 1, false, [],
      ctx.translations ++ [tr ctx.current_utterance]⟩ hc']
  simp

/-- Witness for C6's amended theorem with a concrete errored result. -/
theorem segmenter_ignores_error_key_witness :
    (realTimeTranslate
      (fun _ => (⟨"", [], some "boom"⟩ : TranslationResult)) [0, 0]
      ⟨[], none, 9, true, [1], []⟩).context.translations =
      [] ++ [⟨"", [], some "boom"⟩] ∧
    (realTimeTranslate
      (fun _ => (⟨"", [], some "boom"⟩ : TranslationResult)) [1, 0]
      (realTimeTranslate
        (fun _ => (⟨"", [], some "boom"⟩ : TranslationResult)) [0, 0]
        ⟨[], none, 9, true, [1], []⟩).context).context.is_speaking
      = true := by
  have h := segmenter_ignores_error_key
    (fun _ => (⟨"", [], some "boom"⟩ : TranslationResult))
    [0, 0] [1, 0] ⟨[], none, 9, true, [1], []⟩ "boom"
    (by norm_num [detectSpeech, chunkEnergy]) rfl
    (by show 10 ≤ 9 + 1; omega) (by decide) rfl
    (by norm_num [detectSpeech, chunkEnergy])
  exact ⟨h.1, h.2.2.2.2.1⟩

/-! ### AudioProcessor mock fallback (`audio_processor.py`) -/

/-- The synthetic test signal of `_run_mock_processing_loop`:
`0.3 * sin(2π·440·t) + 0.05 * noise`, with `t = np.linspace(0, 3,
sample_rate*3, endpoint=False)`, i.e. `t_i = 3·i/(sample_rate·3)`.  The
noise term is drawn from the process-global `np.random.normal(0, 1, ·)`
stream, which is never seeded; the draw is therefore an implicit input,
made explicit here as the `noise` argument. -/
noncomputable def mockTestSignal (sampleRate : ℕ) (noise : ℕ → ℝ)
    (i : ℕ) : ℝ :=
  0.3 * Real.sin (2 * Real.pi * 440 *
    (3 * (i : ℝ) / ((sampleRate : ℝ) * 3))) + 0.05 * noise i

/-- `[mock_audio[i:i+chunk_size] for i in range(0, len(mock_audio),
chunk_size)]`: slice a list into consecutive pieces of `size` samples. -/
def sliceList {α : Type} (size : ℕ) (l : List α) : List (List α) :=
  match l with
  | [] => []
  | x :: xs =>
    if h : size = 0 then []
    else (x :: xs).take size :: sliceList size ((x :: xs).drop size)
termination_by l.length
decreasing_by
  simp only [List.length_drop, List.length_cons]
  omega

/-- The chunk list the mock loop cycles over: the 3-second test signal
sliced into `buffer_size` pieces. -/
noncomputable def mockChunks (sampleRate bufferSize : ℕ)
    (noise : ℕ → ℝ) : List (List ℝ) :=
  sliceList bufferSize
    ((List.range (sampleRate * 3)).map (mockTestSignal sampleRate noise))

/-- The `while self.running:` body of `_run_mock_processing_loop`, run for
up to `fuel` iterations: iteration `i` executes only while the running
flag (sampled at the top of each iteration, value `running i`) stays true,
and processes `chunks[chunk_index % len(chunks)]` through
`process_audio`. -/
def mockLoopFrames (running : ℕ → Bool) (chunks : List (List ℝ))
    (process : List ℝ → List ℝ) (fuel : ℕ) : List (List ℝ) :=
  ((List.range fuel).takeWhile running).map
    (fun i => process (chunks.getD (i % chunks.length) []))

/-- The fallback decision of `_processing_loop` together with the frames
the mock loop then processes: when `get_input_device`/`get_output_device`
yields no device, `_run_mock_processing_loop` is entered with the running
flag untouched; when stream setup raises, the handler first sets
`self.running = False` and only then enters the mock loop, so the loop
observes a permanently false flag; otherwise the hardware path is taken
(no mock frames, `none`). -/
def processingLoopMockFrames (running : ℕ → Bool)
    (inputDev outputDev : Option String) (setupRaises : Bool)
    (chunks : List (List ℝ)) (process : List ℝ → List ℝ) (fuel : ℕ) :
    Option (List (List ℝ)) :=
  if inputDev = none ∨ outputDev = none then
    some (mockLoopFrames running chunks process fuel)
  else if setupRaises then
    some (mockLoopFrames (fun _ => false) chunks process fuel)
  else none

/-- Helper: a permanently false running flag yields no mock frames. -/
theorem mockLoopFrames_false (chunks : List (List ℝ))
    (process : List ℝ → List ℝ) (fuel : ℕ) :
    mockLoopFrames (fun _ => false) chunks process fuel = [] := by
  unfold mockLoopFrames
  cases List.range fuel with
  | nil => rfl
  | cons x xs => simp [List.takeWhile]

/-- C7 counterexample.  Stream setup raising on a resolved device pair:
the mock fallback is entered (`some`) but — because the handler clears the
running flag before calling the mock loop — not a single frame is
processed, even though the session was started and never stopped
(observed flag constantly true); the same loop with the flag intact would
have processed five frames. -/
theorem mock_loop_after_exception_empty_cex :
    processingLoopMockFrames (fun _ => true) (some "mic") (some "spk")
      true [[1]] id 5 = some [] ∧
    (mockLoopFrames (fun _ => true) [[1]] id 5).length = 5 := by
  constructor
  · unfold processingLoopMockFrames
    rw [if_neg (by simp), if_pos rfl]
    rw [mockLoopFrames_false]
  · rfl

/-- C7 amended.  When device resolution yields no usable input/output
pair, the engine enters the mock loop with the session flag intact: while
the flag stays true it processes one frame per iteration — each frame a
slice of the synthetic test tone run through the same processing chain —
so the stream is non-empty and unbounded in the running time.  When
instead stream setup raises, the handler clears the running flag before
entering the mock loop, which therefore processes no frame at all. -/
theorem mock_fallback_behavior (running : ℕ → Bool)
    (inDev outDev : Option String) (sampleRate bufferSize fuel : ℕ)
    (noise : ℕ → ℝ) (process : List ℝ → List ℝ)
    (hdev : inDev = none ∨ outDev = none)
    (hrun : ∀ i, running i = true)
    (hsr : 0 < sampleRate) (hbs : 0 < bufferSize) (hfuel : 0 < fuel) :
    processingLoopMockFrames running inDev outDev false
        (mockChunks sampleRate bufferSize noise) process fuel =
      some ((List.range fuel).map (fun i =>
        process ((mockChunks sampleRate bufferSize noise).getD
          (i % (mockChunks sampleRate bufferSize noise).length) []))) ∧
    ((List.range fuel).map (fun i =>
        process ((mockChunks sampleRate bufferSize noise).getD
          (i % (mockChunks sampleRate bufferSize noise).length) [])))
      ≠ [] ∧
    mockChunks sampleRate bufferSize noise ≠ [] ∧
    (∀ (inDevH outDevH : String) (chunks : List (List ℝ)),
      processingLoopMockFrames running (some inDevH) (some outDevH) true
        chunks process fuel = some []) := by
  have htake : (List.range fuel).takeWhile running = List.range fuel := by
    rw [List.takeWhile_eq_self_iff]
    intro a _
    exact hrun a
  refine ⟨?_, ?_, ?_, ?_⟩
  · unfold processingLoopMockFrames
    rw [if_pos hdev]
    unfold mockLoopFrames
    rw [htake]
  · intro h
    have := congrArg List.length h
    simp at this
    omega
  · unfold mockChunks
    cases hmap : (List.range (sampleRate * 3)).map
        (mockTestSignal sampleRate noise) with
    | nil =>
      exfalso
      have := congrArg List.length hmap
      simp at this
      omega
    | cons y ys =>
      unfold sliceList
      rw [dif_neg (by omega)]
      exact List.cons_ne_nil _ _
  · intro inDevH outDevH chunks
    unfold processingLoopMockFrames
    rw [if_neg (by simp), if_pos rfl, mockLoopFrames_false]

/-- Witness for C7's amended theorem with one missing device. -/
theorem mock_fallback_behavior_witness :
    processingLoopMockFrames (fun _ => true) none (some "spk") false
        (mockChunks 2 1 (fun _ => 0)) id 1 =
      some ((List.range 1).map (fun i =>
        id ((mockChunks 2 1 (fun _ => 0)).getD
          (i % (mockChunks 2 1 (fun _ => 0)).length) []))) ∧
    processingLoopMockFrames (fun _ => true) (some "mic") (some "spk")
      true (mockChunks 2 1 (fun _ => 0)) id 1 = some [] := by
  have h := mock_fallback_behavior (fun _ => true) none (some "spk")
    2 1 1 (fun _ => 0) id (Or.inl rfl) (fun _ => rfl)
    (by decide) (by decide) (by decide)
  exact ⟨h.1, h.2.2.2 "mic" "spk" (mockChunks 2 1 (fun _ => 0))⟩

/-- C8 counterexample.  The generated test signal is not a function of the
configuration alone: at sample 0 the deterministic sine part vanishes and
the value is `0.05 ·` the (unseeded) noise draw, so two runs whose noise
draws differ produce different sample sequences for the same sample rate
and buffer size. -/
theorem mock_signal_not_deterministic_cex :
    mockTestSignal 16000 (fun _ => 0) 0 ≠
      mockTestSignal 16000 (fun _ => 1) 0 := by
  unfold mockTestSignal
  simp
  norm_num

/-- C8 amended.  The sine component is a deterministic function of the
configuration, but the signal adds `0.05 ·` an unseeded Gaussian draw;
two runs of the generation with the same sample rate agree at a sample
exactly when their noise draws agree there — reproducibility holds only
for a fixed noise stream, not across runs. -/
theorem mock_signal_deterministic_up_to_noise (sampleRate : ℕ)
    (noise₁ noise₂ : ℕ → ℝ) (i : ℕ) :
    mockTestSignal sampleRate noise₁ i = mockTestSignal sampleRate noise₂ i
      ↔ noise₁ i = noise₂ i := by
  unfold mockTestSignal
  constructor
  · intro h
    have h2 := add_left_cancel h
    exact mul_left_cancel₀ (by norm_num) h2
  · intro h
    rw [h]

/-! ### Job/Preview Queue (`realtime_preview.py`) -/

/-- The per-job record kept in `self.current_jobs` (the fields the status
protocol touches: `status` and the optional `result`). -/
structure PreviewJob where
  status : String
  result : Option String
deriving Repr, DecidableEq

/-- `self.current_jobs`: the job-id-keyed dict, modelled as an
association list. -/
abbrev JobTable : Type := List (String × PreviewJob)

/-- Dict lookup `self.current_jobs[job_id]`. -/
def lookupJob (jobs : JobTable) (jobId : String) : Option PreviewJob :=
  match jobs with
  | [] => none
  | kv :: rest => if kv.1 = jobId then some kv.2 else lookupJob rest jobId

/-- The value `get_job_status` hands back: either the stored job record,
or the `{"error": "Job not found"}` dict.  Both are ordinary return
values — the function never raises. -/
inductive JobStatusResult
  | job (found : PreviewJob)
  | notFound (msg : String)
deriving Repr, DecidableEq

/-- `RealtimePreviewProcessor.get_job_status`. -/
def get_job_status (jobs : JobTable) (jobId : String) : JobStatusResult :=
  match lookupJob jobs jobId with
  | some j => JobStatusResult.job j
  | none => JobStatusResult.notFound "Job not found"

/-- `_update_job_status`: update the status of an existing job; the
`result` key is overwritten only when a result is passed. -/
def updateJobStatus (jobs : JobTable) (jobId status : String)
    (result : Option String) : JobTable :=
  jobs.map (fun kv =>
    if kv.1 = jobId then
      (kv.1, ⟨status, match result with
                      | some r => some r
                      | none => kv.2.result⟩)
    else kv)

/-- Audio payloads of preview requests. -/
abbrev Audio : Type := List ℚ

/-- `_process_audio` of the preview processor: the body is wrapped in
`try/except` returning `None`, so a raising pipeline and a failed
pipeline look the same to the caller — no output. -/
def processAudioGuard (f : Audio → Except String Audio) (a : Audio) :
    Option Audio :=
  match f a with
  | Except.ok r => some r
  | Except.error _ => none

/-- `_process_preview_request` for a submitted job: mark it `processing`,
run the (guarded) processing step, then either mark it `completed` (with
the saved preview path, when saving succeeded) or mark it `error` with the
message `"Processing failed"`. -/
def processPreviewRequest (f : Audio → Except String Audio)
    (savePreview : Audio → Option String) (jobs : JobTable)
    (jobId : String) (audio : Audio) : JobTable :=
  let jobs1 := updateJobStatus jobs jobId "processing" none
  match processAudioGuard f audio with
  | some processed =>
    updateJobStatus jobs1 jobId "completed" (savePreview processed)
  | none =>
    updateJobStatus jobs1 jobId "error" (some "Processing failed")

/-- Helper: looking a job up after `_update_job_status` sees the updated
record when the job exists. -/
theorem lookupJob_updateJobStatus (jobs : JobTable)
    (jobId status : String) (result : Option String) :
    lookupJob (updateJobStatus jobs jobId status result) jobId =
      (lookupJob jobs jobId).map (fun j =>
        ⟨status, match result with
                 | some r => some r
                 | none => j.result⟩) := by
  induction jobs with
  | nil => rfl
  | cons kv rest ih =>
    by_cases h : kv.1 = jobId
    · simp [updateJobStatus, lookupJob, h]
    · simp only [updateJobStatus, List.map_cons, if_neg h]
      simp only [lookupJob, if_neg h]
      exact ih

/-- C9.  Querying a never-submitted job id yields the explicit
`"Job not found"` value (the total function `get_job_status` cannot
raise), and a submitted job whose processing step raises or yields no
output ends with status `"error"` and the non-empty message
`"Processing failed"` stored as its result, visible to later queries. -/
theorem job_queue_error_handling (f : Audio → Except String Audio)
    (savePreview : Audio → Option String) (jobs : JobTable)
    (jobId unknownId : String) (audio : Audio)
    (hmem : lookupJob jobs jobId ≠ none)
    (hfail : processAudioGuard f audio = none)
    (hunk : lookupJob jobs unknownId = none) :
    get_job_status jobs unknownId =
      JobStatusResult.notFound "Job not found" ∧
    get_job_status (processPreviewRequest f savePreview jobs jobId audio)
        jobId =
      JobStatusResult.job ⟨"error", some "Processing failed"⟩ ∧
    "Processing failed" ≠ "" := by
  obtain ⟨j, hj⟩ := Option.ne_none_iff_exists'.mp hmem
  refine ⟨?_, ?_, by decide⟩
  · unfold get_job_status
    rw [hunk]
  · unfold get_job_status processPreviewRequest
    rw [hfail]
    dsimp only
    rw [lookupJob_updateJobStatus, lookupJob_updateJobStatus, hj]
    rfl

/-- Witness for C9 on a one-job table with a raising processing step. -/
theorem job_queue_error_handling_witness :
    get_job_status [("j1", ⟨"queued", none⟩)] "nope" =
      JobStatusResult.notFound "Job not found" ∧
    get_job_status
        (processPreviewRequest (fun _ => Except.error "boom")
          (fun _ => none) [("j1", ⟨"queued", none⟩)] "j1" [1]) "j1" =
      JobStatusResult.job ⟨"error", some "Processing failed"⟩ := by
  have h := job_queue_error_handling (fun _ => Except.error "boom")
    (fun _ => none) [("j1", ⟨"queued", none⟩)] "j1" "nope" [1]
    (by simp [lookupJob]) rfl (by simp [lookupJob])
  exact ⟨h.1, h.2.1⟩
